import Mathlib

/-!
# Verification of the HuskerFB_Schedule scraper core

Shallow embedding, in Lean 4, of the pure transformation core of
`scraper/scrape.py` and `scraper/utils.py`: string normalisation
(`slugify`, `normalize_tv`), table-row parsing (date/time/location/teams
columns), venue-slug composition with an alias table, card-enrichment
merging, and the final sort.  Strings are embedded as Lean `String`
(`List Char` data), machine text functions (`lower`, `strip`, regex
scans) are written out as executable structural recursions that mirror
the Python semantics on the inputs the pipeline feeds them.

Python-specific conventions embedded explicitly:
* `x or y` on strings/options (falsy = `None`/`""`) becomes `pyOr...`;
* `re` scans are embedded as explicit left-to-right backtracking
  matchers over `List Char`;
* `datetime(...)` construction validates its ranges (a `ValueError`
  aborts the batch), so the row builder returns `Option`.
-/

namespace HuskerFB

/-- ASCII whitespace, the characters `str.strip()` / `\s` handle in the
pipeline's data (after `clean` no exotic whitespace survives). -/
def isWs (c : Char) : Bool :=
  c = ' ' || c = '\t' || c = '\n' || c = '\r' || c = '\x0b' || c = '\x0c'

/-- Character class `[a-z0-9]` of `_slug_re` in `utils.py`. -/
def isSlugChar (c : Char) : Bool := (('a' ≤ c && c ≤ 'z') || ('0' ≤ c && c ≤ '9'))

/-- Word characters for the regex `\b` boundary (`[A-Za-z0-9_]`). -/
def isWordChar (c : Char) : Bool :=
  ('a' ≤ c && c ≤ 'z') || ('A' ≤ c && c ≤ 'Z') || ('0' ≤ c && c ≤ '9') || c = '_'

/-- `str.strip()` on a char list: drop whitespace from both ends. -/
def trimWs (l : List Char) : List Char :=
  ((l.dropWhile isWs).reverse.dropWhile isWs).reverse

/-- Python `str.upper()`, character-wise (ASCII data). -/
def upperStr (s : String) : String := String.mk (s.data.map Char.toUpper)

mutual
/-- `_slug_re.sub('-', s)` (`utils.py` line 18/23): replace every maximal
run of characters outside `[a-z0-9]` by a single `'-'`.  `replRuns`
copies slug characters; on the first bad character it emits `'-'` and
lets `skipBad` consume the rest of the run. -/
def replRuns : List Char → List Char
  | [] => []
  | c :: cs => if isSlugChar c then c :: replRuns cs else '-' :: skipBad cs

/-- Consume the remainder of a non-slug-character run, then resume. -/
def skipBad : List Char → List Char
  | [] => []
  | c :: cs => if isSlugChar c then c :: replRuns cs else skipBad cs
end

mutual
/-- `re.sub(r'-+', '-', s)` (`utils.py` line 24): collapse runs of
hyphens to a single hyphen. -/
def collapseDash : List Char → List Char
  | [] => []
  | c :: cs => if c = '-' then '-' :: dropDash cs else c :: collapseDash cs

/-- Consume the remainder of a hyphen run. -/
def dropDash : List Char → List Char
  | [] => []
  | c :: cs => if c = '-' then dropDash cs else c :: collapseDash cs
end

/-- `.strip('-')` (`utils.py` line 24): drop hyphens from both ends. -/
def stripDash (l : List Char) : List Char :=
  ((l.dropWhile (· = '-')).reverse.dropWhile (· = '-')).reverse

/-- `slugify` from `utils.py` lines 21-25:
`s.lower().strip()`, replace non-`[a-z0-9]` runs by `'-'`, collapse
`'-'` runs, strip `'-'`.  `str.lower()` is embedded character-wise
(pipeline data is ASCII). -/
def slugify (s : String) : String :=
  String.mk (stripDash (collapseDash (replRuns (trimWs (s.data.map Char.toLower)))))

/-- `TV_MAP` from `utils.py` lines 7-12, as an association list. -/
def tvPairs : List (String × String) :=
  [("big ten network", "btn"), ("btn", "btn"),
   ("fox", "fox"), ("fs1", "fs1"), ("fs2", "fs2"),
   ("cbs", "cbs"), ("nbc", "nbc"), ("peacock", "peacock"),
   ("abc", "abc"), ("espn", "espn"), ("espn2", "espn2"), ("espnu", "espnu")]

/-- `re.sub(r"[^a-z0-9 ]+", "", key)`: delete every character outside
`[a-z0-9 ]` (replacing runs by the empty string = filtering). -/
def keepTvChars (l : List Char) : List Char :=
  l.filter (fun c => isSlugChar c || c = ' ')

/-- `normalize_tv` from `utils.py` lines 28-33 (`None`/empty falsy guard,
lower+strip, delete non-`[a-z0-9 ]`, `TV_MAP.get`). -/
def normalizeTv (s : Option String) : Option String :=
  match s with
  | none => none
  | some s =>
    if s = "" then none
    else
      let key := String.mk (keepTvChars (trimWs (s.data.map Char.toLower)))
      tvPairs.lookup key

/-! ## Python conventions -/

/-- Python `a or b` where `a` is a string (`""` falsy). -/
def pyOrS (a b : String) : String := if a = "" then b else a

/-- Python `a or b` where `a` is `str | None` and the result is a string. -/
def pyOrOS (a : Option String) (b : String) : String :=
  match a with
  | none => b
  | some s => if s = "" then b else s

/-- Python `a or b` where both sides are `str | None`. -/
def pyOrOO (a b : Option String) : Option String :=
  match a with
  | none => b
  | some s => if s = "" then b else some s

/-- Python truthiness of a `str | None` value. -/
def pyTruthy (a : Option String) : Bool :=
  match a with
  | none => false
  | some s => s ≠ ""

/-- Python `needle in hay` on strings: `needle` occurs contiguously in
`hay` (the empty string occurs in everything). -/
def isSub : List Char → List Char → Bool
  | n, [] => n.isEmpty
  | n, c :: t => n.isPrefixOf (c :: t) || isSub n t

/-- String wrapper for `isSub`. -/
def containsSub (needle hay : String) : Bool := isSub needle.data hay.data

/-! ## `clean` and column splitting (`scrape.py` lines 75-76, 140-147) -/

mutual
/-- Collapse every maximal whitespace run to a single space
(`re.sub(r"\s+", " ", s)`). -/
def collapseWs : List Char → List Char
  | [] => []
  | c :: cs => if isWs c then ' ' :: dropWsRun cs else c :: collapseWs cs

/-- Consume the remainder of a whitespace run. -/
def dropWsRun : List Char → List Char
  | [] => []
  | c :: cs => if isWs c then dropWsRun cs else c :: collapseWs cs
end

/-- `clean` from `scrape.py` lines 75-76:
`re.sub(r"\s+", " ", (s or "").strip())`. -/
def clean (s : String) : String := String.mk (collapseWs (trimWs s.data))

/-- Split at the first occurrence of `" / "` (`loc.split(" / ", 1)`),
returning the two surrounding parts when the separator occurs. -/
def splitSlash : List Char → Option (List Char × List Char)
  | [] => none
  | c :: cs =>
    if [' ', '/', ' '].isPrefixOf (c :: cs) then some ([], cs.drop 2)
    else (splitSlash cs).map (fun p => (c :: p.1, p.2))

mutual
/-- `re.split(r"\s{2,}|\|", s)`: split on `'|'` and on whitespace runs
of length at least two (each maximal run is one separator).  `acc`
holds the current part, reversed. -/
def splitLocParts (acc : List Char) : List Char → List (List Char)
  | [] => [acc.reverse]
  | c :: cs =>
    if c = '|' then acc.reverse :: splitLocParts [] cs
    else if isWs c then
      match cs with
      | [] => [(c :: acc).reverse]
      | d :: ds =>
        if isWs d then acc.reverse :: splitLocSep ds
        else splitLocParts (c :: acc) (d :: ds)
    else splitLocParts (c :: acc) cs

/-- Consume the remainder of a whitespace-run separator, then start the
next part. -/
def splitLocSep : List Char → List (List Char)
  | [] => [[]]
  | c :: cs =>
    if isWs c then splitLocSep cs
    else if c = '|' then [] :: splitLocParts [] cs
    else splitLocParts [c] cs
end

/-- Location-column split, `scrape.py` lines 140-147: a `" / "`
separator yields stripped city and venue; otherwise split on `'|'` /
double-space, keep non-empty stripped parts, first part is the city. -/
def parseLoc (locCol : String) : Option String × Option String :=
  match splitSlash locCol.data with
  | some (a, b) => (some (String.mk (trimWs a)), some (String.mk (trimWs b)))
  | none =>
    let parts := ((splitLocParts [] locCol.data).map trimWs).filter (· ≠ [])
    match parts with
    | [] => (none, none)
    | p :: _ => (some (String.mk p), none)

/-! ## Teams column (`scrape.py` lines 132-138) -/

/-- Case-insensitive literal prefix test (ASCII). -/
def startsWithCI (pat : List Char) (l : List Char) : Bool :=
  (pat.map Char.toLower).isPrefixOf (l.map Char.toLower)

/-- Teams-column match `re.search(r"^(vs\.|at)\s*(.*)$", t, re.I | re.M)`
on a `clean`ed (hence newline-free) column: anchored at the start, the
marker alternation tries `"vs."` then `"at"`, the remainder is stripped.
No match keeps the defaults `("vs.", whole column)`. -/
def parseTeams (teamsCol : String) : String × String :=
  let l := teamsCol.data
  if startsWithCI ['v', 's', '.'] l then
    ("vs.", String.mk (trimWs (l.drop 3)))
  else if startsWithCI ['a', 't'] l then
    ("at", String.mk (trimWs (l.drop 2)))
  else
    ("vs.", teamsCol)

/-! ## Clock-time regex (`scrape.py` line 157)

`re.search(r"\b(\d{1,2}:\d{2}\s*[AP]M(?:\s*[A-Z]{2,3}T)?)\b", t, re.I)`
embedded as an explicit matcher.  Greedy alternatives are tried in the
regex engine's order: two digits before one, the timezone group before
its absence, three timezone letters before two. -/

/-- Trailing `\b`: the previous character is a word character, so the
boundary holds exactly when the rest is empty or starts non-word. -/
def atWordBoundary : List Char → Bool
  | [] => true
  | c :: _ => !isWordChar c

/-- Optional `(?:\s*[A-Z]{2,3}T)?` followed by `\b`, starting right
after the meridiem.  Returns the characters the group consumed. -/
def matchTz (rest : List Char) : Option (List Char) :=
  let ws := rest.takeWhile isWs
  let r := rest.dropWhile isWs
  let try3 : Option (List Char) :=
    match r with
    | l1 :: l2 :: l3 :: t :: r3 =>
      if l1.isAlpha && l2.isAlpha && l3.isAlpha && t.toLower = 't' &&
          atWordBoundary r3 then
        some (ws ++ [l1, l2, l3, t])
      else none
    | _ => none
  let try2 : Option (List Char) :=
    match r with
    | l1 :: l2 :: t :: r3 =>
      if l1.isAlpha && l2.isAlpha && t.toLower = 't' && atWordBoundary r3 then
        some (ws ++ [l1, l2, t])
      else none
    | _ => none
  try3 <|> try2

/-- `\s*[AP]M` (case-insensitive) then the optional timezone group and
the trailing `\b`.  Returns the consumed characters. -/
def matchMeridiem (rest : List Char) : Option (List Char) :=
  let ws := rest.takeWhile isWs
  match rest.dropWhile isWs with
  | a :: m :: r =>
    if (a.toLower = 'a' || a.toLower = 'p') && m.toLower = 'm' then
      match matchTz r with
      | some tz => some (ws ++ [a, m] ++ tz)
      | none => if atWordBoundary r then some (ws ++ [a, m]) else none
    else none
  | _ => none

/-- `:\d{2}` then the meridiem part; returns the consumed characters
(starting with the colon). -/
def matchColonPart : List Char → Option (List Char)
  | ':' :: d1 :: d2 :: r =>
    if d1.isDigit && d2.isDigit then
      (matchMeridiem r).map (fun t => ':' :: d1 :: d2 :: t)
    else none
  | _ => none

/-- Match the full group `\d{1,2}:\d{2}\s*[AP]M(?:\s*[A-Z]{2,3}T)?\b` at
the head of the list (two leading digits tried before one). -/
def matchClockAt : List Char → Option (List Char)
  | c1 :: r1 =>
    if c1.isDigit then
      (match r1 with
       | c2 :: r2 =>
         if c2.isDigit then (matchColonPart r2).map (fun t => c1 :: c2 :: t)
         else none
       | [] => none) <|>
      (matchColonPart r1).map (fun t => [c1] ++ t)
    else none
  | [] => none

/-- Leading `\b` before a digit: holds at the start of the string or
after a non-word character. -/
def boundaryBefore : Option Char → Bool
  | none => true
  | some p => !isWordChar p

/-- `re.search` scan: leftmost position (with a word boundary before it)
where the clock group matches. -/
def clockSearchFrom (prev : Option Char) : List Char → Option (List Char)
  | [] => none
  | c :: rest =>
    (if boundaryBefore prev then matchClockAt (c :: rest) else none) <|>
      clockSearchFrom (some c) rest

/-- The whole clock-time search on a time column. -/
def clockSearch (l : List Char) : Option (List Char) := clockSearchFrom none l

/-- `mt.group(1).upper().replace(".", "")` (`scrape.py` line 159). -/
def cleanClock (l : List Char) : String :=
  String.mk ((l.map Char.toUpper).filter (· ≠ '.'))

/-- Time-column handling, `scrape.py` lines 150-162: empty or literal
`"TBA"` (any case) marks TBA; otherwise the clock search either yields
the display time or falls back to TBA.  Returns `(tba, time_local)`. -/
def parseTime (timeCol : String) : Bool × String :=
  if timeCol = "" || upperStr timeCol = "TBA" then (true, "TBA")
  else
    match clockSearch timeCol.data with
    | some m => (false, cleanClock m)
    | none => (true, "TBA")

/-! ## Date-column regexes (`scrape.py` lines 78-93) -/

/-- The seven weekday alternatives of
`(Mon|Tue|Wed|Thu|Fri|Sat|Sun)`, lowercased for the `re.I` compare. -/
def weekdayKeys : List (List Char) :=
  [['m','o','n'], ['t','u','e'], ['w','e','d'], ['t','h','u'],
   ['f','r','i'], ['s','a','t'], ['s','u','n']]

/-- `str.title()` on a single word: first character upper, rest lower. -/
def titleWord : List Char → List Char
  | [] => []
  | c :: cs => c.toUpper :: cs.map Char.toLower

/-- After the month token: `\s+(\d{1,2})`.  The day group greedily takes
at most two digits of the digit run; `int()` converts them. -/
def matchDayAfter (rest : List Char) : Option Nat :=
  match rest with
  | c :: r =>
    if isWs c then
      let r' := (c :: r).dropWhile isWs
      let digits := r'.takeWhile Char.isDigit
      if digits = [] then none
      else some ((digits.take 2).foldl (fun n d => n * 10 + (d.toNat - 48)) 0)
    else none
  | [] => none

/-- Month token `([A-Z][a-z]{2,})` (with `re.I` a maximal letter run of
length at least three) followed by `\s+(\d{1,2})`.  Returns the
`title()`d token and the day number. -/
def matchMonthDayAt (l : List Char) : Option (String × Nat) :=
  let letters := l.takeWhile Char.isAlpha
  if letters.length < 3 then none
  else
    (matchDayAfter (l.drop letters.length)).map
      (fun d => (String.mk (titleWord letters), d))

/-- First date pattern at a position:
`(Mon|Tue|Wed|Thu|Fri|Sat|Sun)[a-z]*\s+([A-Z][a-z]{2,})\s+(\d{1,2})`.
Returns `(weekday group upper-cased, month token title-cased, day)`. -/
def matchP1At (l : List Char) : Option (String × String × Nat) :=
  let w3 := l.take 3
  if w3.length = 3 && weekdayKeys.contains (w3.map Char.toLower) then
    let afterWd := (l.drop 3).dropWhile Char.isAlpha
    match afterWd with
    | c :: _ =>
      if isWs c then
        (matchMonthDayAt (afterWd.dropWhile isWs)).map
          (fun p => (String.mk (w3.map Char.toUpper), p.1, p.2))
      else none
    | [] => none
  else none

/-- `re.search` scan for the first pattern. -/
def searchP1 : List Char → Option (String × String × Nat)
  | [] => none
  | c :: rest => matchP1At (c :: rest) <|> searchP1 rest

/-- `re.search` scan for the fallback pattern
`([A-Z][a-z]{2,})\s+(\d{1,2})`. -/
def searchP2 : List Char → Option (String × Nat)
  | [] => none
  | c :: rest =>
    (if c.isAlpha then matchMonthDayAt (c :: rest) else none) <|> searchP2 rest

/-- Stage one of `parse_date_tokens` (`scrape.py` lines 80-93): the two
regex searches, yielding the optional upper-cased weekday group, the
title-cased month token and the day number. -/
def extractDate (l : List Char) : Option (Option String × String × Nat) :=
  match searchP1 l with
  | some (w, m, d) => some (some w, m, d)
  | none => (searchP2 l).map (fun p => (none, p.1, p.2))

/-- `month_map` from `scrape.py` lines 95-100. -/
def monthPairs : List (String × Nat) :=
  [("Jan", 1), ("January", 1), ("Feb", 2), ("February", 2),
   ("Mar", 3), ("March", 3), ("Apr", 4), ("April", 4), ("May", 5),
   ("Jun", 6), ("June", 6), ("Jul", 7), ("July", 7),
   ("Aug", 8), ("August", 8), ("Sep", 9), ("Sept", 9), ("September", 9),
   ("Oct", 10), ("October", 10), ("Nov", 11), ("November", 11),
   ("Dec", 12), ("December", 12)]

/-- `month_map.get(month_str)`. -/
def monthMap (s : String) : Option Nat := monthPairs.lookup s

/-- Stage two of `parse_date_tokens` (`scrape.py` lines 101-109): month
lookup (falsy guard) and year inference against the current date.
Mirrors the Python 4-tuple of optionals. -/
def finishParse (nowMonth nowYear : Nat)
    (m : Option (Option String × String × Nat)) :
    Option String × Option String × Option Nat × Option Nat :=
  match m with
  | none => (none, none, none, none)
  | some (wd, monthStr, day) =>
    match monthMap monthStr with
    | none => (none, none, none, none)
    | some mm =>
      let year := if mm < nowMonth - 1 then nowYear + 1 else nowYear
      (wd, some (monthStr.take 3), some day, some year)

/-- `parse_date_tokens` (`scrape.py` lines 78-109), with the ambient
`datetime.now()` made an explicit `(nowMonth, nowYear)` parameter. -/
def parseDateTokens (nowMonth nowYear : Nat) (dateTxt : String) :
    Option String × Option String × Option Nat × Option Nat :=
  finishParse nowMonth nowYear (extractDate dateTxt.data)

/-! ## `datetime(...).isoformat()` (used at `scrape.py` lines 181-185) -/

/-- Decimal digit character for `d < 10`. -/
def dig : Nat → Char
  | 0 => '0' | 1 => '1' | 2 => '2' | 3 => '3' | 4 => '4'
  | 5 => '5' | 6 => '6' | 7 => '7' | 8 => '8' | _ => '9'

/-- Two-digit zero-padded decimal field of `isoformat`. -/
def pad2 (n : Nat) : List Char := [dig (n / 10), dig (n % 10)]

/-- Four-digit zero-padded decimal field of `isoformat`. -/
def pad4 (n : Nat) : List Char :=
  [dig (n / 1000), dig (n / 100 % 10), dig (n / 10 % 10), dig (n % 10)]

/-- `datetime(y, mo, d, hh, mi).isoformat()`:
`YYYY-MM-DDTHH:MM:SS` with seconds zero. -/
def isoChars (y mo d hh mi : Nat) : List Char :=
  pad4 y ++ '-' :: (pad2 mo ++ '-' :: (pad2 d ++
    'T' :: (pad2 hh ++ ':' :: (pad2 mi ++ ':' :: pad2 0))))

/-- Gregorian leap-year rule (as validated by Python `datetime`). -/
def isLeap (y : Nat) : Bool := y % 4 = 0 && (y % 100 ≠ 0 || y % 400 = 0)

/-- Days in a month, Python `calendar` rule. -/
def daysInMonth (y mo : Nat) : Nat :=
  if mo = 2 then (if isLeap y then 29 else 28)
  else if mo = 4 || mo = 6 || mo = 9 || mo = 11 then 30
  else 31

/-- The `datetime` constructor: validates its ranges exactly as Python
does (a failure raises `ValueError`, aborting the batch), then renders
`isoformat()`. -/
def mkDatetimeIso (y mo d hh mi : Nat) : Option String :=
  if 1 ≤ y && y ≤ 9999 && 1 ≤ mo && mo ≤ 12 && 1 ≤ d &&
      d ≤ daysInMonth y mo && hh ≤ 23 && mi ≤ 59 then
    some (String.mk (isoChars y mo d hh mi))
  else none

/-- `mm_map` from `scrape.py` line 170. -/
def mmPairs : List (String × Nat) :=
  [("Jan", 1), ("Feb", 2), ("Mar", 3), ("Apr", 4), ("May", 5), ("Jun", 6),
   ("Jul", 7), ("Aug", 8), ("Sep", 9), ("Oct", 10), ("Nov", 11), ("Dec", 12)]

/-- `mm_map[mo3]` (a missing key raises `KeyError`). -/
def mmMap (s : String) : Option Nat := mmPairs.lookup s

/-- The anchored clock match of `scrape.py` line 172,
`re.match(r"(\d{1,2}):(\d{2})\s*([AP]M)", time_local, re.I)`: returns
`(hour, minute, upper-cased meridiem)`. -/
def matchClockStart (l : List Char) : Option (Nat × Nat × String) :=
  let finish : Nat → List Char → Option (Nat × Nat × String) :=
    fun hh r =>
      match r with
      | ':' :: d1 :: d2 :: r2 =>
        if d1.isDigit && d2.isDigit then
          let mi := (d1.toNat - 48) * 10 + (d2.toNat - 48)
          match r2.dropWhile isWs with
          | a :: m :: _ =>
            if (a.toLower = 'a' || a.toLower = 'p') && m.toLower = 'm' then
              some (hh, mi, String.mk [a.toUpper, m.toUpper])
            else none
          | _ => none
        else none
      | _ => none
  match l with
  | c1 :: r1 =>
    if c1.isDigit then
      (match r1 with
       | c2 :: r2 =>
         if c2.isDigit then
           finish ((c1.toNat - 48) * 10 + (c2.toNat - 48)) r2
         else none
       | [] => none) <|>
      finish (c1.toNat - 48) r1
    else none
  | [] => none

/-- 12-hour to 24-hour conversion, `scrape.py` lines 177-180. -/
def adjustHour (hh : Nat) (ampm : String) : Nat :=
  if ampm = "PM" && hh ≠ 12 then hh + 12
  else if ampm = "AM" && hh = 12 then 0
  else hh

/-- The hour/minute the canonical timestamp uses, `scrape.py` lines
171-185: the anchored clock re-parse when a time was extracted, the
zero default (midnight) otherwise. -/
def clockHourMin (tba : Bool) (timeLocal : String) : Nat × Nat :=
  if tba = false && timeLocal ≠ "" then
    match matchClockStart timeLocal.data with
    | some (hh, mi, ampm) => (adjustHour hh ampm, mi)
    | none => (0, 0)
  else (0, 0)

/-- Date building, `scrape.py` lines 164-185: given the parsed date
tokens and the time fields, produce `(date_iso, date_str)`.  The outer
`Option` is the crash channel (`KeyError` on `mm_map`, `ValueError`
from `datetime`); the inner options are the Python `None`s. -/
def buildDate (tba : Bool) (timeLocal : String)
    (mo3 : Option String) (day year : Option Nat) :
    Option (Option String × Option String) :=
  match mo3, day, year with
  | some m3, some d, some y =>
    if m3 ≠ "" && d ≠ 0 && y ≠ 0 then
      match mmMap m3 with
      | none => none
      | some mm =>
        match mkDatetimeIso y mm d (clockHourMin tba timeLocal).1
            (clockHourMin tba timeLocal).2 with
        | none => none
        | some iso => some (some iso, some (m3 ++ " " ++ toString d))
    else some (none, none)
  | _, _, _ => some (none, none)

/-! ## Site and venue slug (`scrape.py` lines 111-118, 187-198) -/

/-- `determine_site` from `scrape.py` lines 111-118. -/
def determineSite (va : String) (city : Option String) : String :=
  let vaL := String.mk (va.data.map Char.toLower)
  let cityL := String.mk ((city.getD "").data.map Char.toLower)
  if containsSub "at" vaL then "away"
  else if containsSub "lincoln" cityL then "home"
  else "neutral"

/-- `re.sub(r",.*$", "", city)` on the (newline-free, `clean`ed) city
text: everything from the first comma on is removed. -/
def dropCommaTail (s : String) : String := String.mk (s.data.takeWhile (· ≠ ','))

/-- The `"-" + slugify(...) if city else ""` city tag of
`scrape.py` lines 195 and 328. -/
def cityTag (city : Option String) : String :=
  if pyTruthy city then "-" ++ slugify (dropCommaTail (city.getD "")) else ""

/-- Table-path venue slug, `scrape.py` lines 190-198: exact alias lookup
short-circuits; otherwise compose `slugify(base)` with the city tag,
appended only when the tag is truthy and the base slug does not occur
inside the tag. -/
def tableVenueSlug (aliases : List (String × String))
    (venue : Option String) (city : Option String) : String :=
  let venueLabel := pyOrOS venue ""
  match aliases.lookup venueLabel with
  | some slug => slug
  | none =>
    let tag := cityTag city
    let base := pyOrS venueLabel (pyOrOS city "stadium")
    let baseSlug := slugify base
    baseSlug ++ (if tag ≠ "" && !containsSub baseSlug tag then tag else "")

/-- Merger-path venue slug, `scrape.py` lines 328-330: recomputed from
the fragment's venue and city with the same composition rule, with no
alias lookup. -/
def mergeVenueSlug (venue : String) (city : Option String) : String :=
  let tag := cityTag city
  let baseSlug := slugify venue
  baseSlug ++ (if tag ≠ "" && !containsSub baseSlug tag then tag else "")

/-! ## The game record and the table-row builder (`scrape.py` 120-215) -/

/-- The per-game dict appended at `scrape.py` lines 200-215. -/
structure Game where
  date_iso : Option String
  weekday : Option String
  date_str : String
  time_local : String
  tba : Bool
  site : String
  va : String
  opponent_name : String
  opponent_slug : Option String
  location_city : Option String
  location_venue : String
  stadium_slug : String
  tv_network : Option String
  opponent_logo_url : Option String
  status : String
deriving Repr, DecidableEq

/-- Python `s.split()[0]` for the non-empty-token case: first
whitespace-separated token (empty if none exists, where Python would
raise `IndexError` — unreachable in the pipeline). -/
def firstToken (s : String) : String :=
  String.mk ((s.data.dropWhile isWs).takeWhile (fun c => !isWs c))

/-- The `weekday` field expression of `scrape.py` line 202:
`weekday or (date_str or "").split()[0].upper() if date_str else None`
(the conditional binds last). -/
def weekdayField (weekday : Option String) (dateStr : Option String) :
    Option String :=
  match dateStr with
  | none => none
  | some ds =>
    if ds = "" then none
    else some (pyOrOS weekday (upperStr (firstToken (pyOrS ds ""))))

/-- One table row, `scrape.py` lines 122-215: `clean` the four cells,
parse the teams marker, split the location, classify the time, parse
the date tokens, build the canonical timestamp, and assemble the
record.  `none` models an exception escaping the row (`KeyError` /
`ValueError` while building the date).  Rows with fewer than four cells
never reach this function. -/
def processRow (aliases : List (String × String)) (nowMonth nowYear : Nat)
    (dateCol teamsCol locCol timeCol : String) : Option Game :=
  let dateC := clean dateCol
  let teamsC := clean teamsCol
  let locC := clean locCol
  let timeC := clean timeCol
  let vaOpp := parseTeams teamsC
  let va := vaOpp.1
  let oppName := vaOpp.2
  let cityVenue := parseLoc locC
  let city := cityVenue.1
  let venue := cityVenue.2
  let tbaTime := parseTime timeC
  let tba := tbaTime.1
  let timeLocal := tbaTime.2
  let parsed := parseDateTokens nowMonth nowYear dateC
  let weekday := parsed.1
  let mo3 := parsed.2.1
  let day := parsed.2.2.1
  let year := parsed.2.2.2
  match buildDate tba timeLocal mo3 day year with
  | none => none
  | some (dateIso, dateStr) =>
    let site := determineSite va city
    let oppSlug := if oppName ≠ "" then some (slugify oppName) else none
    let venueLabel := pyOrOS venue ""
    some
      { date_iso := dateIso
        weekday := weekdayField weekday dateStr
        date_str := pyOrOS dateStr dateC
        time_local := timeLocal
        tba := tba
        site := site
        va := va
        opponent_name := oppName
        opponent_slug := oppSlug
        location_city := city
        location_venue := venueLabel
        stadium_slug := tableVenueSlug aliases venue city
        tv_network := none
        opponent_logo_url := none
        status := "scheduled" }

/-! ## Enrichment fragments and the merge (`scrape.py` 217-336) -/

/-- A card-derived enrichment fragment (`card_info` entry,
`scrape.py` lines 294-301). -/
structure Fragment where
  opp_name : Option String
  va : String
  city : Option String
  venue : Option String
  logo : Option String
  tv_alt : Option String
deriving Repr, DecidableEq

/-- `str.casefold()` restricted to the ASCII range the pipeline's data
lives in: character-wise lower-casing. -/
def casefold (s : String) : String := String.mk (s.data.map Char.toLower)

/-- `tv_norm` from `scrape.py` lines 303-307. -/
def tvNorm (tvAlt : Option String) : Option String :=
  match tvAlt with
  | none => none
  | some s =>
    if s = "" then none
    else
      let key := String.mk (keepTvChars (trimWs (s.data.map Char.toLower)))
      pyOrOO (normalizeTv (some key)) (normalizeTv (some s))

/-- The merge loop's match test, `scrape.py` lines 313-319: skip falsy
fragment names; otherwise case-insensitive substring containment in
either direction. -/
def fragMatches (name : String) (ci : Fragment) : Bool :=
  match ci.opp_name with
  | none => false
  | some s =>
    if s = "" then false
    else
      let a := casefold s
      let b := casefold name
      a ≠ "" && (containsSub a b || containsSub b a)

/-- Field overlay applied to a matched record, `scrape.py` lines
321-332. -/
def applyOverlay (g : Game) (best : Fragment) : Game :=
  { g with
    opponent_name := pyOrOS best.opp_name g.opponent_name
    opponent_slug :=
      if pyTruthy best.opp_name then some (slugify (best.opp_name.getD ""))
      else g.opponent_slug
    va := pyOrS best.va g.va
    location_city := if pyTruthy best.city then best.city else g.location_city
    location_venue :=
      if pyTruthy best.venue then best.venue.getD "" else g.location_venue
    stadium_slug :=
      if pyTruthy best.venue then mergeVenueSlug (best.venue.getD "") best.city
      else g.stadium_slug
    opponent_logo_url := pyOrOO best.logo g.opponent_logo_url
    tv_network := pyOrOO (tvNorm best.tv_alt) g.tv_network }

/-- Merge one record against the fragment list, `scrape.py` lines
310-332: first matching fragment wins, no match leaves the record
unchanged. -/
def mergeGame (g : Game) (cards : List Fragment) : Game :=
  match cards.find? (fragMatches (String.mk (trimWs g.opponent_name.data))) with
  | none => g
  | some best => applyOverlay g best

/-! ## Final sort (`scrape.py` lines 357-361) -/

/-- `sort_key` from `scrape.py` lines 358-360:
`di or f"zzz-{g.get('opponent_name','')}"`. -/
def sortKey (g : Game) : String :=
  pyOrOS g.date_iso ("zzz-" ++ g.opponent_name)

/-- `games.sort(key=sort_key)`: a stable ascending sort under the
string order of the keys. -/
def sortSchedule (gs : List Game) : List Game :=
  gs.mergeSort (fun a b => decide (sortKey a ≤ sortKey b))

/-! ## Slug characterisation (towards C8) -/

/-- Characters a slug may contain: `[a-z0-9]` or `'-'`. -/
def goodChar (c : Char) : Bool := isSlugChar c || c = '-'

/-- No two adjacent hyphens. -/
def nodd (a b : Char) : Prop := ¬(a = '-' ∧ b = '-')

theorem char_le_iff_toNat {a b : Char} : a ≤ b ↔ a.toNat ≤ b.toNat := by
  simp [Char.le_def, UInt32.le_def, BitVec.le_def, Char.toNat, UInt32.toNat]

theorem toLower_fix {c : Char} (h : goodChar c = true) : c.toLower = c := by
  simp only [goodChar, isSlugChar, Bool.or_eq_true, Bool.and_eq_true,
    decide_eq_true_eq] at h
  have hno : ¬(c.toNat ≥ 65 ∧ c.toNat ≤ 90) := by
    rcases h with (⟨ha, hb⟩ | ⟨ha, hb⟩) | rfl
    · rw [char_le_iff_toNat] at ha
      have h97 : (97 : Nat) ≤ c.toNat := ha
      omega
    · rw [char_le_iff_toNat] at hb
      have h57 : c.toNat ≤ 57 := hb
      omega
    · decide
  show Char.toLower c = c
  simp only [Char.toLower]
  rw [if_neg hno]

theorem goodChar_not_ws {c : Char} (h : goodChar c = true) : isWs c = false := by
  cases hw : isWs c
  · rfl
  · exfalso
    simp only [isWs, Bool.or_eq_true, decide_eq_true_eq] at hw
    rcases hw with ((((rfl | rfl) | rfl) | rfl) | rfl) | rfl <;>
      exact absurd h (by decide)

theorem replRuns_good :
    ∀ l : List Char, (∀ c ∈ replRuns l, goodChar c = true) ∧
      (∀ c ∈ skipBad l, goodChar c = true) := by
  intro l
  induction l with
  | nil => simp [replRuns, skipBad]
  | cons a as ih =>
    constructor
    · intro c hc
      rw [replRuns] at hc
      by_cases hgood : isSlugChar a
      · rw [if_pos hgood] at hc
        rcases List.mem_cons.mp hc with rfl | hc
        · simp [goodChar, hgood]
        · exact ih.1 c hc
      · rw [if_neg hgood] at hc
        rcases List.mem_cons.mp hc with rfl | hc
        · decide
        · exact ih.2 c hc
    · intro c hc
      rw [skipBad] at hc
      by_cases hgood : isSlugChar a
      · rw [if_pos hgood] at hc
        rcases List.mem_cons.mp hc with rfl | hc
        · simp [goodChar, hgood]
        · exact ih.1 c hc
      · rw [if_neg hgood] at hc
        exact ih.2 c hc

theorem collapseDash_good {l : List Char} (h : ∀ c ∈ l, goodChar c = true) :
    (∀ c ∈ collapseDash l, goodChar c = true) ∧
      (∀ c ∈ dropDash l, goodChar c = true) := by
  induction l with
  | nil => simp [collapseDash, dropDash]
  | cons a as ih =>
    have ha : goodChar a = true := h a (by simp)
    have ih' := ih (fun c hc => h c (by simp [hc]))
    constructor
    · intro c hc
      rw [collapseDash] at hc
      by_cases hd : a = '-'
      · rw [if_pos hd] at hc
        rcases List.mem_cons.mp hc with rfl | hc
        · decide
        · exact ih'.2 c hc
      · rw [if_neg hd] at hc
        rcases List.mem_cons.mp hc with rfl | hc
        · exact ha
        · exact ih'.1 c hc
    · intro c hc
      rw [dropDash] at hc
      by_cases hd : a = '-'
      · rw [if_pos hd] at hc
        exact ih'.2 c hc
      · rw [if_neg hd] at hc
        rcases List.mem_cons.mp hc with rfl | hc
        · exact ha
        · exact ih'.1 c hc

theorem stripDash_sublist (l : List Char) : ∀ c ∈ stripDash l, c ∈ l := by
  intro c hc
  unfold stripDash at hc
  rw [List.mem_reverse] at hc
  have h1 := (List.dropWhile_suffix (l := (l.dropWhile (· = '-')).reverse)
    (fun c => c = '-')).subset hc
  rw [List.mem_reverse] at h1
  exact (List.dropWhile_suffix (fun c => c = '-')).subset h1

theorem collapseDash_chain :
    ∀ l : List Char, List.Chain' nodd (collapseDash l) ∧
      List.Chain' nodd (dropDash l) ∧
      (∀ h, (dropDash l).head? = some h → h ≠ '-') := by
  intro l
  induction l with
  | nil => simp [collapseDash, dropDash]
  | cons a as ih =>
    refine ⟨?_, ?_⟩
    · rw [collapseDash]
      by_cases hd : a = '-'
      · rw [if_pos hd]
        rw [List.chain'_cons']
        refine ⟨?_, ih.2.1⟩
        intro y hy
        have := ih.2.2 y hy
        subst hd
        exact fun ⟨_, h2⟩ => this h2
      · rw [if_neg hd]
        rw [List.chain'_cons']
        exact ⟨fun y _ => fun ⟨h1, _⟩ => hd h1, ih.1⟩
    · rw [dropDash]
      by_cases hd : a = '-'
      · rw [if_pos hd]
        exact ⟨ih.2.1, ih.2.2⟩
      · rw [if_neg hd]
        refine ⟨?_, ?_⟩
        · rw [List.chain'_cons']
          exact ⟨fun y _ => fun ⟨h1, _⟩ => hd h1, ih.1⟩
        · intro h hh
          simp only [List.head?_cons, Option.some.injEq] at hh
          exact hh ▸ hd

theorem collapseDash_id :
    ∀ l : List Char, List.Chain' nodd l →
      collapseDash l = l ∧
      (∀ h, l.head? = some h → h ≠ '-' → dropDash l = l) := by
  intro l
  induction l with
  | nil => simp [collapseDash, dropDash]
  | cons a as ih =>
    intro hch
    rw [List.chain'_cons'] at hch
    obtain ⟨hhd, htl⟩ := hch
    have ih' := ih htl
    constructor
    · rw [collapseDash]
      by_cases hd : a = '-'
      · rw [if_pos hd]
        subst hd
        congr 1
        match has : as with
        | [] => simp [dropDash]
        | b :: bs =>
          have hb : b ≠ '-' := by
            intro hb
            exact hhd b (by simp) ⟨rfl, hb⟩
          exact ih'.2 b (by simp) hb
      · rw [if_neg hd]
        rw [ih'.1]
    · intro h hh hne
      simp only [List.head?_cons, Option.some.injEq] at hh
      subst hh
      rw [dropDash, if_neg hne, ih'.1]

theorem replRuns_id :
    ∀ l : List Char, (∀ c ∈ l, goodChar c = true) → List.Chain' nodd l →
      replRuns l = l ∧
      (∀ h, l.head? = some h → isSlugChar h = true → skipBad l = l) := by
  intro l
  induction l with
  | nil => simp [replRuns, skipBad]
  | cons a as ih =>
    intro hgood hch
    rw [List.chain'_cons'] at hch
    obtain ⟨hhd, htl⟩ := hch
    have ih' := ih (fun c hc => hgood c (by simp [hc])) htl
    have ha := hgood a (by simp)
    constructor
    · rw [replRuns]
      by_cases hs : isSlugChar a
      · rw [if_pos hs, ih'.1]
      · have had : a = '-' := by
          simp only [goodChar, Bool.or_eq_true, decide_eq_true_eq] at ha
          tauto
        rw [if_neg hs]
        subst had
        congr 1
        match has : as with
        | [] => simp [skipBad]
        | b :: bs =>
          have hb : b ≠ '-' := by
            intro hb
            exact hhd b (by simp) ⟨rfl, hb⟩
          have hbg := hgood b (by simp [has])
          have hbs : isSlugChar b = true := by
            simp only [goodChar, Bool.or_eq_true, decide_eq_true_eq] at hbg
            tauto
          exact ih'.2 b (by simp) hbs
    · intro h hh hs
      simp only [List.head?_cons, Option.some.injEq] at hh
      subst hh
      rw [skipBad, if_pos hs, ih'.1]

theorem dropWhile_head_id {p : Char → Bool} {l : List Char}
    (h : ∀ c, l.head? = some c → p c = false) : l.dropWhile p = l := by
  match l with
  | [] => rfl
  | c :: cs => rw [List.dropWhile_cons, if_neg (by simp [h c rfl])]

theorem head?_dropWhile_false {p : Char → Bool} {l : List Char} {h : Char}
    (hh : (l.dropWhile p).head? = some h) : p h = false := by
  induction l with
  | nil => simp at hh
  | cons c cs ih =>
    rw [List.dropWhile_cons] at hh
    by_cases hp : p c
    · rw [if_pos hp] at hh
      exact ih hh
    · rw [if_neg hp] at hh
      simp only [List.head?_cons, Option.some.injEq] at hh
      subst hh
      simpa using hp

theorem prefix_head {l₁ l₂ : List Char} {h : Char} (hp : l₁ <+: l₂)
    (hh : l₁.head? = some h) : l₂.head? = some h := by
  obtain ⟨t, rfl⟩ := hp
  match l₁, hh with
  | c :: cs, hh => simpa using hh

theorem stripDashFront (l : List Char) :
    stripDash l <+: l.dropWhile (· = '-') := by
  unfold stripDash
  have h := List.dropWhile_suffix (l := (l.dropWhile (· = '-')).reverse)
    (fun c => decide (c = '-'))
  rw [← List.reverse_prefix] at h
  simpa using h

theorem stripDash_head {l : List Char} {h : Char}
    (hh : (stripDash l).head? = some h) : h ≠ '-' := by
  have h2 := prefix_head (stripDashFront l) hh
  have := head?_dropWhile_false h2
  simpa using this

theorem stripDash_getLast {l : List Char} {h : Char}
    (hh : (stripDash l).getLast? = some h) : h ≠ '-' := by
  unfold stripDash at hh
  rw [List.getLast?_reverse] at hh
  have := head?_dropWhile_false hh
  simpa using this

theorem stripDashWithin (l : List Char) : stripDash l <:+: l :=
  (stripDashFront l).isInfix.trans (List.dropWhile_suffix _).isInfix

theorem stripDash_chain {l : List Char} (h : List.Chain' nodd l) :
    List.Chain' nodd (stripDash l) :=
  h.infix (stripDashWithin l)

/-- The characters of a slug, its hyphen layout, and its ends, as
produced by one pass of `slugify`. -/
theorem slugify_shape (x : String) :
    (∀ c ∈ (slugify x).data, goodChar c = true) ∧
      List.Chain' nodd (slugify x).data ∧
      (∀ h, (slugify x).data.head? = some h → h ≠ '-') ∧
      (∀ h, (slugify x).data.getLast? = some h → h ≠ '-') := by
  unfold slugify
  refine ⟨?_, ?_, ?_, ?_⟩
  · intro c hc
    have h1 := stripDash_sublist _ c hc
    exact (collapseDash_good (fun d hd => (replRuns_good _).1 d hd)).1 c h1
  · exact stripDash_chain (collapseDash_chain _).1
  · exact fun h hh => stripDash_head hh
  · exact fun h hh => stripDash_getLast hh

theorem trimWs_id {l : List Char} (h : ∀ c ∈ l, isWs c = false) :
    trimWs l = l := by
  unfold trimWs
  rw [dropWhile_head_id (fun c hc => h c (List.mem_of_mem_head? hc)),
    dropWhile_head_id
      (fun c hc => h c (List.mem_reverse.mp (List.mem_of_mem_head? hc))),
    List.reverse_reverse]

/-- C8 core step: a string already of slug shape is fixed by `slugify`. -/
theorem slugify_fix_of_shape {l : List Char}
    (hgood : ∀ c ∈ l, goodChar c = true) (hch : List.Chain' nodd l)
    (hh : ∀ h, l.head? = some h → h ≠ '-')
    (hl : ∀ h, l.getLast? = some h → h ≠ '-') :
    slugify (String.mk l) = String.mk l := by
  unfold slugify
  have hmap : l.map Char.toLower = l := by
    rw [List.map_congr_left (fun c hc => toLower_fix (hgood c hc))]
    exact List.map_id' l
  have htrim : trimWs l = l :=
    trimWs_id (fun c hc => goodChar_not_ws (hgood c hc))
  have hrepl : replRuns l = l := (replRuns_id l hgood hch).1
  have hcoll : collapseDash l = l := (collapseDash_id l hch).1
  have hstrip : stripDash l = l := by
    have h1 : l.dropWhile (· = '-') = l :=
      dropWhile_head_id (fun c hc => by simpa using hh c hc)
    have h2 : l.reverse.dropWhile (· = '-') = l.reverse :=
      dropWhile_head_id (fun c hc => by
        rw [List.head?_reverse] at hc
        simpa using hl c hc)
    unfold stripDash
    rw [h1, h2, List.reverse_reverse]
  simp only [hmap, htrim, hrepl, hcoll, hstrip]

/-- C8: `slugify` is a total pure function: the empty string maps to
the empty identifier, and `slugify` is idempotent on every string. -/
theorem slugify_total_idempotent :
    slugify "" = "" ∧ ∀ x : String, slugify (slugify x) = slugify x := by
  constructor
  · rfl
  · intro x
    obtain ⟨hg, hc, hh, hl⟩ := slugify_shape x
    exact slugify_fix_of_shape hg hc hh hl

/-! ## C10: the closed set of broadcaster codes -/

/-- The eleven broadcaster codes (the value set of `TV_MAP`). -/
def tvCodes : List String :=
  ["btn", "fox", "fs1", "fs2", "cbs", "nbc", "peacock", "abc",
   "espn", "espn2", "espnu"]

theorem lookup_mem_snd {l : List (String × String)} {k v : String}
    (h : l.lookup k = some v) : v ∈ l.map Prod.snd := by
  induction l with
  | nil => simp [List.lookup] at h
  | cons p ps ih =>
    rw [List.lookup] at h
    cases hk : k == p.1 with
    | true =>
      rw [hk] at h
      simp only [Option.some.injEq] at h
      subst h
      simp
    | false =>
      rw [hk] at h
      simp only [List.map_cons, List.mem_cons]
      exact Or.inr (ih h)

theorem tvPairs_snd_sub {v : String} (h : v ∈ tvPairs.map Prod.snd) :
    v ∈ tvCodes := by
  simp only [tvPairs, List.map_cons, List.map_nil, List.mem_cons,
    List.not_mem_nil, or_false] at h
  rcases h with rfl | rfl | rfl | rfl | rfl | rfl | rfl | rfl | rfl | rfl |
    rfl | rfl <;> simp [tvCodes]

theorem normalizeTv_mem (s : Option String) :
    normalizeTv s ∈ (none :: tvCodes.map Option.some) := by
  match s with
  | none => simp [normalizeTv]
  | some s =>
    rw [normalizeTv]
    by_cases hs : s = ""
    · simp [hs]
    · rw [if_neg hs]
      cases hl : tvPairs.lookup
          (String.mk (keepTvChars (trimWs (s.data.map Char.toLower)))) with
      | none => simp
      | some v =>
        have hv := tvPairs_snd_sub (lookup_mem_snd hl)
        simp only [List.mem_cons, List.mem_map]
        exact Or.inr ⟨v, hv, rfl⟩

theorem tvNorm_mem (s : Option String) :
    tvNorm s ∈ (none :: tvCodes.map Option.some) := by
  match s with
  | none => simp [tvNorm]
  | some s =>
    rw [tvNorm]
    by_cases hs : s = ""
    · simp [hs]
    · rw [if_neg hs]
      show pyOrOO (normalizeTv (some (String.mk (keepTvChars
          (trimWs (s.data.map Char.toLower)))))) (normalizeTv (some s)) ∈ _
      cases h1 : normalizeTv (some (String.mk (keepTvChars
          (trimWs (s.data.map Char.toLower))))) with
      | none =>
        rw [pyOrOO]
        exact normalizeTv_mem (some s)
      | some v =>
        have hmem := normalizeTv_mem (some (String.mk (keepTvChars
          (trimWs (s.data.map Char.toLower)))))
        rw [h1] at hmem
        rw [pyOrOO]
        by_cases hv : v = ""
        · rw [if_pos hv]
          exact normalizeTv_mem (some s)
        · rw [if_neg hv]
          exact hmem

/-- C10: TV-network normalisation always yields `None` or one of the
eleven fixed codes; base records carry `None`, and the merge keeps the
field inside the closed set. -/
theorem tv_network_closed :
    (∀ s, normalizeTv s ∈ (none :: tvCodes.map Option.some)) ∧
    (∀ s, tvNorm s ∈ (none :: tvCodes.map Option.some)) ∧
    (∀ aliases nowMonth nowYear dc tc lc wc g,
      processRow aliases nowMonth nowYear dc tc lc wc = some g →
      g.tv_network = none) ∧
    (∀ (g : Game) cards, g.tv_network ∈ (none :: tvCodes.map Option.some) →
      (mergeGame g cards).tv_network ∈ (none :: tvCodes.map Option.some)) := by
  refine ⟨normalizeTv_mem, tvNorm_mem, ?_, ?_⟩
  · intro aliases nm ny dc tc lc wc g h
    rw [processRow] at h
    split at h
    · exact absurd h (by simp)
    · simp only [Option.some.injEq] at h
      subst h
      rfl
  · intro g cards hg
    rw [mergeGame]
    cases hf : cards.find? (fragMatches (String.mk (trimWs g.opponent_name.data))) with
    | none => exact hg
    | some best =>
      show (applyOverlay g best).tv_network ∈ _
      rw [applyOverlay]
      show pyOrOO (tvNorm best.tv_alt) g.tv_network ∈ _
      cases ht : tvNorm best.tv_alt with
      | none =>
        rw [pyOrOO]
        exact hg
      | some v =>
        rw [pyOrOO]
        by_cases hv : v = ""
        · rw [if_pos hv]
          exact hg
        · rw [if_neg hv]
          have hmem := tvNorm_mem best.tv_alt
          rw [ht] at hmem
          exact hmem

/-- Witness for C10 at concrete inputs. -/
theorem tv_network_closed_witness :
    ((processRow [] 8 2025 "Sat Aug 30" "vs. Colorado"
        "Lincoln, Neb. / Memorial Stadium" "TBA").map Game.tv_network =
      some none) ∧
    (mergeGame
        { date_iso := none, weekday := none, date_str := "", time_local := "TBA",
          tba := true, site := "home", va := "vs.", opponent_name := "Colorado",
          opponent_slug := none, location_city := none, location_venue := "",
          stadium_slug := "", tv_network := none, opponent_logo_url := none,
          status := "scheduled" } []).tv_network ∈
      (none :: tvCodes.map Option.some) := by
  constructor
  · cases hp : processRow [] 8 2025 "Sat Aug 30" "vs. Colorado"
        "Lincoln, Neb. / Memorial Stadium" "TBA" with
    | none => exact absurd hp (by decide)
    | some g =>
      rw [Option.map_some']
      rw [tv_network_closed.2.2.1 [] 8 2025 _ _ _ _ g hp]
  · exact tv_network_closed.2.2.2 _ [] (by decide)

/-! ## C6: year inference -/

theorem lookup_pair_mem {l : List (String × Nat)} {k : String} {v : Nat}
    (h : l.lookup k = some v) : (k, v) ∈ l := by
  induction l with
  | nil => simp [List.lookup] at h
  | cons p ps ih =>
    rw [List.lookup] at h
    cases hk : k == p.1 with
    | true =>
      rw [hk] at h
      simp only [Option.some.injEq] at h
      have hk' : k = p.1 := by simpa using hk
      subst h
      subst hk'
      simp
    | false =>
      rw [hk] at h
      simp only [List.mem_cons]
      exact Or.inr (ih h)

theorem monthMap_take3_all : ∀ p ∈ monthPairs, monthMap (p.1.take 3) = some p.2 := by
  decide

/-- C6: through `parse_date_tokens`, when the month token resolves to
month number `m` and the current date is month `c` of year `y`, the
inferred year is `y + 1` exactly when `m < c - 1`, and `y` otherwise. -/
theorem year_inference (c y : Nat) (ext : Option (Option String × String × Nat))
    (wd mo3 : Option String) (d yr m : Nat)
    (h : finishParse c y ext = (wd, mo3, some d, some yr))
    (hm : monthMap (mo3.getD "") = some m) :
    (yr = y + 1 ↔ m < c - 1) ∧ (¬ m < c - 1 → yr = y) := by
  match ext with
  | none => simp [finishParse] at h
  | some (w, mstr, dd) =>
    rw [finishParse] at h
    cases hmm : monthMap mstr with
    | none => rw [hmm] at h; simp at h
    | some mm =>
      rw [hmm] at h
      simp only [Prod.mk.injEq, Option.some.injEq] at h
      obtain ⟨hw, hmo3, hd, hyr⟩ := h
      have hbridge : monthMap (mstr.take 3) = some mm :=
        monthMap_take3_all (mstr, mm) (lookup_pair_mem hmm)
      rw [← hmo3] at hm
      simp only [Option.getD_some] at hm
      rw [hbridge] at hm
      injection hm with hm
      subst hm
      subst hyr
      by_cases hc : mm < c - 1
      · rw [if_pos hc]
        exact ⟨by simp [hc], fun hn => absurd hc hn⟩
      · rw [if_neg hc]
        refine ⟨⟨fun he => absurd he (by omega), fun hlt => absurd hlt hc⟩, fun _ => rfl⟩

/-- Witness for C6: `"Aug"` (month 8) seen in August 2025 stays in 2025. -/
theorem year_inference_witness :
    ((2025 = 2025 + 1) ↔ (8 < 8 - 1)) ∧ (¬ 8 < 8 - 1 → 2025 = 2025) :=
  year_inference 8 2025 (some (some "SAT", "Aug", 30)) (some "SAT") (some "Aug")
    30 2025 8 (by decide) (by decide)

/-! ## C7: TBA consistency -/

theorem colon_mem_matchColonPart {r t : List Char}
    (h : matchColonPart r = some t) : ':' ∈ t := by
  rw [matchColonPart.eq_def] at h
  split at h
  · split at h
    · rw [Option.map_eq_some'] at h
      obtain ⟨u, _, rfl⟩ := h
      simp
    · simp at h
  · simp at h

theorem colon_mem_matchClockAt {l t : List Char}
    (h : matchClockAt l = some t) : ':' ∈ t := by
  rw [matchClockAt.eq_def] at h
  split at h
  case h_2 => simp at h
  case h_1 c1 r1 =>
    split at h
    · rw [Option.orElse_eq_some] at h
      rcases h with h | ⟨_, h⟩
      · split at h
        · split at h
          · rw [Option.map_eq_some'] at h
            obtain ⟨u, hu, rfl⟩ := h
            have := colon_mem_matchColonPart hu
            simp [this]
          · simp at h
        · simp at h
      · rw [Option.map_eq_some'] at h
        obtain ⟨u, hu, rfl⟩ := h
        have := colon_mem_matchColonPart hu
        simp [this]
    · simp at h

theorem colon_mem_clockSearchFrom {p : Option Char} {l t : List Char}
    (h : clockSearchFrom p l = some t) : ':' ∈ t := by
  induction l generalizing p with
  | nil => simp [clockSearchFrom] at h
  | cons c rest ih =>
    rw [clockSearchFrom] at h
    rw [Option.orElse_eq_some] at h
    rcases h with h | ⟨_, h⟩
    · split at h
      · exact colon_mem_matchClockAt h
      · simp at h
    · exact ih h

theorem cleanClock_ne_TBA {m : List Char} (hm : ':' ∈ m) :
    cleanClock m ≠ "TBA" := by
  intro he
  have hdata : ((m.map Char.toUpper).filter (· ≠ '.')) = "TBA".data := by
    have := congrArg String.data he
    simpa [cleanClock] using this
  have hc : ':' ∈ (m.map Char.toUpper).filter (· ≠ '.') := by
    rw [List.mem_filter]
    refine ⟨?_, by decide⟩
    rw [List.mem_map]
    exact ⟨':', hm, by decide⟩
  rw [hdata] at hc
  simp at hc

theorem parseTime_tba_iff (t : String) :
    ((parseTime t).1 = true ↔ (parseTime t).2 = "TBA") := by
  rw [parseTime]
  split
  · simp
  · cases hs : clockSearch t.data with
    | none => simp
    | some m =>
      have := cleanClock_ne_TBA (colon_mem_clockSearchFrom hs)
      simp [this]

/-- C7: in every record, `is_time_tba` is `true` exactly when
`time_local` is the literal `"TBA"`; when a clock pattern is extracted
the record carries `false` and the cleaned clock text; the merge never
touches either field. -/
theorem tba_consistency :
    (∀ aliases nowMonth nowYear dc tc lc wc g,
      processRow aliases nowMonth nowYear dc tc lc wc = some g →
      (g.tba = true ↔ g.time_local = "TBA")) ∧
    (∀ t m, ¬(t = "" || upperStr t = "TBA") →
      clockSearch t.data = some m → parseTime t = (false, cleanClock m)) ∧
    (∀ g cards, (mergeGame g cards).tba = g.tba ∧
      (mergeGame g cards).time_local = g.time_local) := by
  refine ⟨?_, ?_, ?_⟩
  · intro aliases nm ny dc tc lc wc g h
    rw [processRow] at h
    split at h
    · exact absurd h (by simp)
    · simp only [Option.some.injEq] at h
      subst h
      exact parseTime_tba_iff (clean wc)
  · intro t m hne hs
    rw [parseTime, if_neg (by simpa using hne), hs]
  · intro g cards
    rw [mergeGame]
    cases cards.find? (fragMatches (String.mk (trimWs g.opponent_name.data))) with
    | none => exact ⟨rfl, rfl⟩
    | some best => exact ⟨rfl, rfl⟩

/-- Witness for C7 at concrete rows. -/
theorem tba_consistency_witness :
    ((processRow [] 8 2025 "Sat Aug 30" "vs. Colorado"
        "Lincoln, Neb. / Memorial Stadium" "W 31-7").map
      (fun g => (g.tba, g.time_local)) = some (true, "TBA")) ∧
    parseTime "6:30 PM CDT" = (false, "6:30 PM CDT") := by
  constructor
  · cases hp : processRow [] 8 2025 "Sat Aug 30" "vs. Colorado"
        "Lincoln, Neb. / Memorial Stadium" "W 31-7" with
    | none => exact absurd hp (by decide)
    | some g =>
      rw [Option.map_some']
      have hiff := tba_consistency.1 [] 8 2025 _ _ _ _ g hp
      have htba : g.tba = true := by
        have h2 : (processRow [] 8 2025 "Sat Aug 30" "vs. Colorado"
            "Lincoln, Neb. / Memorial Stadium" "W 31-7").map Game.tba =
            some true := by decide
        rw [hp, Option.map_some'] at h2
        injection h2
      rw [htba, hiff.mp htba]
  · exact tba_consistency.2.1 "6:30 PM CDT" "6:30 PM CDT".data (by decide)
      (by decide)

/-! ## C9: the weekday field on rows without a weekday token -/

theorem parseDateTokens_eval {nm ny : Nat} {s : String} {mstr : String}
    {d m : Nat} {w : Option String}
    (hext : extractDate s.data = some (w, mstr, d))
    (hm : monthMap mstr = some m) :
    parseDateTokens nm ny s =
      (w, some (mstr.take 3), some d,
        some (if m < nm - 1 then ny + 1 else ny)) := by
  rw [parseDateTokens, hext, finishParse, hm]

/-- Facts about every month key: a non-empty three-letter prefix that is
an `mm_map` key for the same month number, upper-cases to a non-weekday
tag, and contains no whitespace. -/
theorem month_key_facts :
    ∀ p ∈ monthPairs, p.1.take 3 ≠ "" ∧ mmMap (p.1.take 3) = some p.2 ∧
      upperStr (p.1.take 3) ∉ ["MON", "TUE", "WED", "THU", "FRI", "SAT", "SUN"] ∧
      (∀ c ∈ (p.1.take 3).data, isWs c = false) := by
  decide

theorem takeWhile_all_append {p : Char → Bool} {xs : List Char} {y : Char}
    {ys : List Char} (hxs : ∀ c ∈ xs, p c = true) (hy : p y = false) :
    (xs ++ y :: ys).takeWhile p = xs := by
  induction xs with
  | nil => simp [List.takeWhile_cons, hy]
  | cons a as ih =>
    rw [List.cons_append, List.takeWhile_cons, if_pos (hxs a (by simp))]
    rw [ih (fun c hc => hxs c (by simp [hc]))]

theorem firstToken_of_token {a r : String}
    (hnws : ∀ c ∈ a.data, isWs c = false) (hne : a ≠ "") :
    firstToken (a ++ " " ++ r) = a := by
  rw [firstToken]
  have hdata : (a ++ " " ++ r).data = a.data ++ ' ' :: r.data := by
    simp [String.data_append]
  rw [hdata]
  have hhead : (a.data ++ ' ' :: r.data).dropWhile isWs =
      a.data ++ ' ' :: r.data := by
    apply dropWhile_head_id
    intro c hc
    apply hnws
    cases ha : a.data with
    | nil => exact absurd (String.ext (ha.trans rfl)) hne
    | cons b bs =>
      rw [ha] at hc
      simp only [List.cons_append, List.head?_cons, Option.some.injEq] at hc
      subst hc
      simp
  rw [hhead]
  rw [takeWhile_all_append (fun c hc => by simp [hnws c hc]) (by decide)]

theorem buildDate_some_snd {tba : Bool} {tl m3 : String} {d y : Nat}
    {res : Option String × Option String}
    (hne : m3 ≠ "") (hd : d ≠ 0) (hy : y ≠ 0)
    (h : buildDate tba tl (some m3) (some d) (some y) = some res) :
    res.2 = some (m3 ++ " " ++ toString d) := by
  rw [buildDate] at h
  rw [if_pos (by simp [hne, hd, hy])] at h
  split at h
  · exact absurd h (by simp)
  · split at h
    · exact absurd h (by simp)
    · simp only [Option.some.injEq] at h
      subst h
      rfl

theorem buildDate_tba_iso {tl m3 : String} {d y mm : Nat}
    {res : Option String × Option String}
    (hne : m3 ≠ "") (hd : d ≠ 0) (hy : y ≠ 0) (hmm : mmMap m3 = some mm)
    (h : buildDate true tl (some m3) (some d) (some y) = some res) :
    res.1 = some (String.mk (isoChars y mm d 0 0)) := by
  have hclock : clockHourMin true tl = (0, 0) := by
    rw [clockHourMin]
    simp
  rw [buildDate] at h
  rw [if_pos (by simp [hne, hd, hy])] at h
  simp only [hclock] at h
  split at h
  case h_1 => exact absurd h (by simp)
  case h_2 x mm' heq =>
    rw [hmm] at heq
    injection heq with heq
    subst heq
    rw [mkDatetimeIso] at h
    split at h
    case h_1 => exact absurd h (by simp)
    case h_2 x iso heq2 =>
      simp only [Option.some.injEq] at h
      subst h
      split at heq2
      · simp only [Option.some.injEq] at heq2
        subst heq2
        rfl
      · exact absurd heq2 (by simp)

/-- C9: a table row whose date text yields a month token and day but no
leading weekday token gets, as its `weekday` field, the upper-cased
three-letter month prefix — which is not a weekday name. -/
theorem weekday_is_month_abbrev (aliases : List (String × String))
    (nm ny : Nat) (dc tc lc wc : String) (mstr : String) (d m : Nat) (g : Game)
    (hext : extractDate (clean dc).data = some (none, mstr, d))
    (hm : monthMap mstr = some m)
    (hd : d ≠ 0) (hy : ny ≠ 0)
    (h : processRow aliases nm ny dc tc lc wc = some g) :
    g.weekday = some (upperStr (mstr.take 3)) ∧
      upperStr (mstr.take 3) ∉ ["MON", "TUE", "WED", "THU", "FRI", "SAT", "SUN"] := by
  obtain ⟨hne, hmm, hwkd, hnws⟩ := month_key_facts (mstr, m) (lookup_pair_mem hm)
  dsimp only at hne hmm hwkd hnws
  rw [processRow] at h
  rw [parseDateTokens_eval hext hm] at h
  set y := if m < nm - 1 then ny + 1 else ny with hy'
  have hyne : y ≠ 0 := by
    rw [hy']
    split <;> omega
  refine ⟨?_, hwkd⟩
  split at h
  · exact absurd h (by simp)
  case h_2 dateIso dateStr heq =>
    have hsnd : dateStr = some (mstr.take 3 ++ " " ++ toString d) :=
      buildDate_some_snd hne hd hyne heq
    simp only [Option.some.injEq] at h
    subst h
    show weekdayField none dateStr = some (upperStr (mstr.take 3))
    rw [hsnd]
    have hdsne : (mstr.take 3 ++ " " ++ toString d) ≠ "" := by
      intro he
      have hd2 := congrArg String.data he
      simp [String.data_append] at hd2
    rw [weekdayField, if_neg hdsne]
    have hpy : pyOrS (mstr.take 3 ++ " " ++ toString d) "" =
        mstr.take 3 ++ " " ++ toString d := by
      rw [pyOrS, if_neg hdsne]
    rw [hpy, firstToken_of_token hnws hne]
    rfl

/-- Witness for C9: the row date `"Aug 30"` yields weekday `"AUG"`. -/
theorem weekday_is_month_abbrev_witness :
    (processRow [] 8 2025 "Aug 30" "vs. Colorado"
        "Lincoln, Neb. / Memorial Stadium" "TBA").map Game.weekday =
      some (some "AUG") := by
  cases hp : processRow [] 8 2025 "Aug 30" "vs. Colorado"
      "Lincoln, Neb. / Memorial Stadium" "TBA" with
  | none => exact absurd hp (by decide)
  | some g =>
    rw [Option.map_some']
    have h2 := (weekday_is_month_abbrev [] 8 2025 "Aug 30" "vs. Colorado"
      "Lincoln, Neb. / Memorial Stadium" "TBA" "Aug" 30 8 g (by decide)
      (by decide) (by decide) (by decide) hp).1
    rw [h2]
    decide

/-! ## C3: the TBA placeholder hour -/

theorem parseTime_tba_of {t : String}
    (h : t = "" ∨ upperStr t = "TBA" ∨ clockSearch t.data = none) :
    parseTime t = (true, "TBA") := by
  rw [parseTime]
  rcases h with h | h | h
  · rw [if_pos (by simp [h])]
  · rw [if_pos (by simp [h])]
  · by_cases hc : (t = "" || upperStr t = "TBA") = true
    · rw [if_pos hc]
    · rw [if_neg hc, h]

/-- C3 counterexample: on a TBA row the canonical timestamp is built at
midnight (hour `00`), not at the claimed placeholder hour of noon. -/
theorem tba_placeholder_counterexample :
    ((processRow [] 8 2025 "Sat Aug 30" "vs. Colorado"
        "Lincoln, Neb. / Memorial Stadium" "TBA").map
      (fun g => (g.tba, g.time_local, g.date_iso)) =
      some (true, "TBA", some "2025-08-30T00:00:00")) ∧
    String.mk (isoChars 2025 8 30 0 0) = "2025-08-30T00:00:00" ∧
    String.mk (isoChars 2025 8 30 12 0) = "2025-08-30T12:00:00" ∧
    ("2025-08-30T00:00:00" : String) ≠ "2025-08-30T12:00:00" := by decide

/-- C3 (amended): a row with a resolved date and an absent / literal
`"TBA"` / pattern-free time is marked TBA, displays `"TBA"`, and its
canonical timestamp is built at the fixed placeholder hour of midnight
(00:00) on that date. -/
theorem tba_placeholder_midnight (aliases : List (String × String))
    (nm ny : Nat) (dc tc lc wc : String) (w : Option String) (mstr : String)
    (d m : Nat) (g : Game)
    (hext : extractDate (clean dc).data = some (w, mstr, d))
    (hm : monthMap mstr = some m)
    (hd : d ≠ 0) (hy : ny ≠ 0)
    (htime : clean wc = "" ∨ upperStr (clean wc) = "TBA" ∨
      clockSearch (clean wc).data = none)
    (h : processRow aliases nm ny dc tc lc wc = some g) :
    g.tba = true ∧ g.time_local = "TBA" ∧
      g.date_iso =
        some (String.mk (isoChars (if m < nm - 1 then ny + 1 else ny) m d 0 0)) := by
  obtain ⟨hne, hmm, hwkd, hnws⟩ := month_key_facts (mstr, m) (lookup_pair_mem hm)
  dsimp only at hne hmm
  have hptime : parseTime (clean wc) = (true, "TBA") := parseTime_tba_of htime
  rw [processRow] at h
  rw [parseDateTokens_eval hext hm] at h
  rw [hptime] at h
  set y := if m < nm - 1 then ny + 1 else ny with hy'
  have hyne : y ≠ 0 := by
    rw [hy']
    split <;> omega
  split at h
  · exact absurd h (by simp)
  case h_2 dateIso dateStr heq =>
    have hfst : dateIso = some (String.mk (isoChars y m d 0 0)) :=
      buildDate_tba_iso hne hd hyne hmm heq
    simp only [Option.some.injEq] at h
    subst h
    exact ⟨rfl, rfl, by rw [show (Game.date_iso _) = dateIso from rfl, hfst]⟩

/-- Witness for the amended C3 at a concrete TBA row. -/
theorem tba_placeholder_midnight_witness :
    (processRow [] 8 2025 "Sat Aug 30" "vs. Colorado"
        "Lincoln, Neb. / Memorial Stadium" "TBA").map
      (fun g => (g.tba, g.time_local, g.date_iso)) =
      some (true, "TBA",
        some (String.mk (isoChars (if 8 < 8 - 1 then 2025 + 1 else 2025)
          8 30 0 0))) := by
  cases hp : processRow [] 8 2025 "Sat Aug 30" "vs. Colorado"
      "Lincoln, Neb. / Memorial Stadium" "TBA" with
  | none => exact absurd hp (by decide)
  | some g =>
    rw [Option.map_some']
    obtain ⟨h1, h2, h3⟩ := tba_placeholder_midnight [] 8 2025 "Sat Aug 30"
      "vs. Colorado" "Lincoln, Neb. / Memorial Stadium" "TBA" (some "SAT")
      "Aug" 30 8 g (by decide) (by decide) (by decide) (by decide)
      (by right; left; decide) hp
    rw [h1, h2, h3]

/-! ## C1, C2: venue slugs and the alias table -/

/-- Python's `in` agrees with list-infix containment. -/
theorem isSub_iff {n h : List Char} : isSub n h = true ↔ n <:+: h := by
  induction h with
  | nil =>
    rw [isSub]
    simp [List.isEmpty_iff]
  | cons c t ih =>
    rw [isSub]
    simp only [Bool.or_eq_true, List.isPrefixOf_iff_prefix, ih]
    exact (List.infix_cons_iff).symm

/-- C2 counterexample: with venue `"Memorial Stadium Lincoln"` and city
`"Lincoln"`, the city tag is a substring of the base slug, so the claim
demands the base slug alone; the code nevertheless appends the tag. -/
theorem venue_slug_composition_counterexample :
    tableVenueSlug [] (some "Memorial Stadium Lincoln") (some "Lincoln") =
      "memorial-stadium-lincoln-lincoln" ∧
    slugify "Memorial Stadium Lincoln" = "memorial-stadium-lincoln" ∧
    slugify "Lincoln" = "lincoln" ∧
    "lincoln".data <:+: "memorial-stadium-lincoln".data ∧
    tableVenueSlug [] (some "Memorial Stadium Lincoln") (some "Lincoln") ≠
      slugify "Memorial Stadium Lincoln" := by
  refine ⟨by decide, by decide, by decide, ?_, by decide⟩
  rw [← isSub_iff]
  decide

/-- C2 (amended): for a non-alias venue with non-empty venue and city
text, the slug is `slugify(venue)` with the dashed city tag appended
exactly when the *base slug* does not occur as a substring of the
dashed tag `"-" ++ slugify(city-without-comma-suffix)`; when the base
slug is contained in that dashed tag, the base slug alone is used. -/
theorem venue_slug_composition (aliases : List (String × String))
    (venue city : String)
    (halias : aliases.lookup venue = none) (hv : venue ≠ "") (hc : city ≠ "") :
    (¬((slugify venue).data <:+: ("-" ++ slugify (dropCommaTail city)).data) →
      tableVenueSlug aliases (some venue) (some city) =
        slugify venue ++ ("-" ++ slugify (dropCommaTail city))) ∧
    (((slugify venue).data <:+: ("-" ++ slugify (dropCommaTail city)).data) →
      tableVenueSlug aliases (some venue) (some city) = slugify venue) := by
  have hpy : pyOrOS (some venue) "" = venue := by
    rw [pyOrOS, if_neg hv]
  have htag : cityTag (some city) = "-" ++ slugify (dropCommaTail city) := by
    rw [cityTag, if_pos (by simp [pyTruthy, hc])]
    rfl
  have hbase : pyOrS venue (pyOrOS (some city) "stadium") = venue := by
    rw [pyOrS, if_neg hv]
  have htagne : ("-" ++ slugify (dropCommaTail city)) ≠ "" := by
    intro he
    have := congrArg String.data he
    simp [String.data_append] at this
  constructor
  · intro hno
    rw [tableVenueSlug, hpy, halias]
    rw [htag, hbase]
    dsimp only
    rw [if_pos]
    simp only [Bool.and_eq_true, decide_eq_true_eq, Bool.not_eq_true']
    refine ⟨htagne, ?_⟩
    rw [show (containsSub (slugify venue) ("-" ++ slugify (dropCommaTail city)))
        = false from ?_]
    rw [← Bool.not_eq_true, containsSub, isSub_iff]
    exact hno
  · intro hyes
    rw [tableVenueSlug, hpy, halias]
    rw [htag, hbase]
    dsimp only
    rw [if_neg]
    · rw [String.append_empty]
    · simp only [Bool.and_eq_true, decide_eq_true_eq, Bool.not_eq_true']
      rintro ⟨-, hfalse⟩
      rw [← Bool.not_eq_true, containsSub, isSub_iff] at hfalse
      exact hfalse hyes

/-- Witness for the amended C2: `"Canvas Stadium"` in
`"Fort Collins, Colo."` gets the city tag appended. -/
theorem venue_slug_composition_witness :
    tableVenueSlug [] (some "Canvas Stadium") (some "Fort Collins, Colo.") =
      "canvas-stadium" ++ ("-" ++ slugify (dropCommaTail "Fort Collins, Colo.")) := by
  have h := (venue_slug_composition [] "Canvas Stadium" "Fort Collins, Colo."
    (by decide) (by decide) (by decide)).1 (by rw [← isSub_iff]; decide)
  rw [h]
  decide

/-- C1 counterexample: an alias entry `"Arrowhead Stadium" → "arrowhead"`
does not apply when the venue label is supplied by an enrichment
fragment — the Merger recomputes the slug without consulting the alias
table. -/
theorem alias_short_circuit_counterexample :
    ((processRow [("Arrowhead Stadium", "arrowhead")] 8 2025 "Sat Sep 6"
        "vs.\nCincinnati" "Lincoln, Neb. / Memorial Stadium" "TBA").map
      (fun g =>
        ((mergeGame g [⟨some "Cincinnati Bearcats", "vs.",
            some "Kansas City, Mo.", some "Arrowhead Stadium",
            some "https://cdn.example/bearcats.png", some "ESPN2"⟩]).location_venue,
          (mergeGame g [⟨some "Cincinnati Bearcats", "vs.",
            some "Kansas City, Mo.", some "Arrowhead Stadium",
            some "https://cdn.example/bearcats.png", some "ESPN2"⟩]).stadium_slug)) =
      some ("Arrowhead Stadium", "arrowhead-stadium-kansas-city")) ∧
    List.lookup "Arrowhead Stadium" [("Arrowhead Stadium", "arrowhead")] =
      some "arrowhead" ∧
    ("arrowhead-stadium-kansas-city" : String) ≠ "arrowhead" := by decide

/-- C1 (amended): an alias-table hit on the venue label short-circuits
the slug composition — regardless of the city text — on the table path;
when the venue label is supplied by an enrichment fragment, the Merger
recomputes `venue_slug` from the fragment's venue/city without
consulting the alias table. -/
theorem alias_short_circuit :
    (∀ (aliases : List (String × String)) (venue city : Option String)
      (slug : String), aliases.lookup (pyOrOS venue "") = some slug →
      tableVenueSlug aliases venue city = slug) ∧
    (∀ (g : Game) (ci : Fragment), pyTruthy ci.venue = true →
      (applyOverlay g ci).stadium_slug =
        mergeVenueSlug (ci.venue.getD "") ci.city) := by
  constructor
  · intro aliases venue city slug hl
    rw [tableVenueSlug, hl]
  · intro g ci hv
    rw [applyOverlay]
    show (if pyTruthy ci.venue then mergeVenueSlug (ci.venue.getD "") ci.city
      else g.stadium_slug) = _
    rw [if_pos hv]

/-- Witness for the amended C1: the alias wins on the table path for
any accompanying city. -/
theorem alias_short_circuit_witness :
    tableVenueSlug [("Arrowhead Stadium", "arrowhead")]
      (some "Arrowhead Stadium") (some "Kansas City, Mo.") = "arrowhead" ∧
    (applyOverlay
        { date_iso := none, weekday := none, date_str := "", time_local := "TBA",
          tba := true, site := "home", va := "vs.", opponent_name := "Cincinnati",
          opponent_slug := none, location_city := none, location_venue := "",
          stadium_slug := "memorial-stadium-lincoln", tv_network := none,
          opponent_logo_url := none, status := "scheduled" }
        ⟨some "Cincinnati Bearcats", "vs.", some "Kansas City, Mo.",
          some "Arrowhead Stadium", none, none⟩).stadium_slug =
      mergeVenueSlug "Arrowhead Stadium" (some "Kansas City, Mo.") := by
  constructor
  · exact alias_short_circuit.1 [("Arrowhead Stadium", "arrowhead")]
      (some "Arrowhead Stadium") (some "Kansas City, Mo.") "arrowhead" (by decide)
  · exact alias_short_circuit.2 _ _ (by decide)

/-! ## C5: the enrichment merge -/

/-- A base record named `"Cincinnati"` (spec §8 scenario). -/
def cinciGame : Game :=
  { date_iso := none, weekday := none, date_str := "Sep 6", time_local := "TBA",
    tba := true, site := "home", va := "vs.", opponent_name := "Cincinnati",
    opponent_slug := some "cincinnati", location_city := some "Lincoln, Neb.",
    location_venue := "Memorial Stadium",
    stadium_slug := "memorial-stadium-lincoln", tv_network := none,
    opponent_logo_url := none, status := "scheduled" }

/-- A card fragment named `"Cincinnati Bearcats"` carrying a logo URL
and a broadcaster (spec §8 scenario). -/
def cinciFrag : Fragment :=
  ⟨some "Cincinnati Bearcats", "vs.", some "Cincinnati, Ohio", none,
    some "https://cdn.example/bearcats.png", some "ESPN2"⟩

theorem find?_append_first {p : Fragment → Bool} (pre post : List Fragment)
    (ci : Fragment) (hpre : ∀ cj ∈ pre, p cj = false) (hci : p ci = true) :
    (pre ++ ci :: post).find? p = some ci := by
  induction pre with
  | nil => simpa [List.find?_cons] using List.find?_cons_of_pos post hci
  | cons c cs ih =>
    rw [List.cons_append,
      List.find?_cons_of_neg _ (by simp [hpre c (by simp)])]
    exact ih (fun cj hj => hpre cj (by simp [hj]))

/-- C5: the Merger takes the first fragment (in card order) whose
non-empty name is in case-insensitive substring containment with the
record's stripped name (either direction); the match overwrites name,
slug and marker and overlays logo and broadcaster; unmatched records
are unchanged; and the `"Cincinnati Bearcats"` fragment matches the
`"Cincinnati"` record and supplies its logo URL and broadcaster. -/
theorem merger_first_match :
    (∀ (g : Game) (cards : List Fragment),
      (∀ ci ∈ cards,
        fragMatches (String.mk (trimWs g.opponent_name.data)) ci = false) →
      mergeGame g cards = g) ∧
    (∀ (g : Game) (pre post : List Fragment) (ci : Fragment),
      (∀ cj ∈ pre,
        fragMatches (String.mk (trimWs g.opponent_name.data)) cj = false) →
      fragMatches (String.mk (trimWs g.opponent_name.data)) ci = true →
      mergeGame g (pre ++ ci :: post) = applyOverlay g ci) ∧
    (∀ (name : String) (ci : Fragment), fragMatches name ci = true ↔
      ∃ s, ci.opp_name = some s ∧ s ≠ "" ∧ casefold s ≠ "" ∧
        ((casefold s).data <:+: (casefold name).data ∨
          (casefold name).data <:+: (casefold s).data)) ∧
    (∀ (g : Game) (ci : Fragment) (s : String),
      ci.opp_name = some s → s ≠ "" →
      (applyOverlay g ci).opponent_name = s ∧
      (applyOverlay g ci).opponent_slug = some (slugify s) ∧
      (applyOverlay g ci).opponent_logo_url = pyOrOO ci.logo g.opponent_logo_url ∧
      (applyOverlay g ci).tv_network = pyOrOO (tvNorm ci.tv_alt) g.tv_network ∧
      (ci.va ≠ "" → (applyOverlay g ci).va = ci.va)) ∧
    (mergeGame cinciGame [cinciFrag] = applyOverlay cinciGame cinciFrag ∧
      (mergeGame cinciGame [cinciFrag]).opponent_logo_url =
        some "https://cdn.example/bearcats.png" ∧
      (mergeGame cinciGame [cinciFrag]).tv_network = some "espn2") := by
  refine ⟨?_, ?_, ?_, ?_, by decide, by decide, by decide⟩
  · intro g cards hall
    rw [mergeGame, List.find?_eq_none.mpr (fun x hx => by simp [hall x hx])]
  · intro g pre post ci hpre hci
    rw [mergeGame, find?_append_first pre post ci hpre hci]
  · intro name ci
    rw [fragMatches]
    cases ho : ci.opp_name with
    | none => simp
    | some s =>
      dsimp only
      by_cases hs : s = ""
      · simp [hs]
      · rw [if_neg hs]
        simp only [Bool.and_eq_true, Bool.or_eq_true, decide_eq_true_eq,
          containsSub, isSub_iff]
        constructor
        · rintro ⟨h1, h2⟩
          exact ⟨s, rfl, hs, h1, h2⟩
        · rintro ⟨s', hs', -, h1, h2⟩
          injection hs' with hs'
          subst hs'
          exact ⟨h1, h2⟩
  · intro g ci s ho hs
    rw [applyOverlay]
    refine ⟨?_, ?_, rfl, rfl, ?_⟩
    · show pyOrOS ci.opp_name g.opponent_name = s
      rw [ho, pyOrOS, if_neg hs]
    · show (if pyTruthy ci.opp_name then some (slugify (ci.opp_name.getD ""))
        else g.opponent_slug) = some (slugify s)
      rw [ho]
      rw [if_pos (by simp [pyTruthy, hs])]
      rfl
    · intro hva
      show pyOrS ci.va g.va = ci.va
      rw [pyOrS, if_neg hva]

/-- Witness for C5: the Cincinnati fragment is selected past a
non-matching fragment, by first-match order. -/
theorem merger_first_match_witness :
    mergeGame cinciGame [⟨none, "vs.", none, none, none, none⟩, cinciFrag] =
      applyOverlay cinciGame cinciFrag :=
  merger_first_match.2.1 cinciGame [⟨none, "vs.", none, none, none, none⟩]
    [] cinciFrag (by decide) (by decide)

/-! ## C4: the final sort is a total order on keys -/

theorem lex_cons_iff' {a b : Char} {l1 l2 : List Char} :
    List.Lex (· < ·) (a :: l1) (b :: l2) ↔
      a < b ∨ (a = b ∧ List.Lex (· < ·) l1 l2) := by
  constructor
  · intro h
    cases h with
    | cons h => exact Or.inr ⟨rfl, h⟩
    | rel h => exact Or.inl h
  · rintro (h | ⟨rfl, h⟩)
    · exact List.Lex.rel h
    · exact List.Lex.cons h

theorem lex_append_block :
    ∀ {l1 l2 t1 t2 : List Char}, l1.length = l2.length →
      (List.Lex (· < ·) (l1 ++ t1) (l2 ++ t2) ↔
        List.Lex (· < ·) l1 l2 ∨ (l1 = l2 ∧ List.Lex (· < ·) t1 t2)) := by
  intro l1
  induction l1 with
  | nil =>
    intro l2 t1 t2 hlen
    match l2 with
    | [] => simp
    | _ :: _ => simp at hlen
  | cons a as ih =>
    intro l2 t1 t2 hlen
    match l2 with
    | [] => simp at hlen
    | b :: bs =>
      simp only [List.length_cons, Nat.add_right_cancel_iff] at hlen
      rw [List.cons_append, List.cons_append, lex_cons_iff', ih hlen,
        lex_cons_iff']
      simp only [List.cons.injEq]
      tauto

theorem dig_lt_iff {i j : Nat} (hi : i < 10) (hj : j < 10) :
    (dig i < dig j) ↔ i < j := by
  interval_cases i <;> interval_cases j <;> decide

theorem dig_inj {i j : Nat} (hi : i < 10) (hj : j < 10) :
    (dig i = dig j) ↔ i = j := by
  interval_cases i <;> interval_cases j <;> decide

theorem dig_lt_z {i : Nat} (hi : i < 10) : dig i < 'z' := by
  interval_cases i <;> decide

theorem pad2_lt {a b : Nat} (ha : a < 100) (hb : b < 100) :
    List.Lex (· < ·) (pad2 a) (pad2 b) ↔ a < b := by
  rw [pad2, pad2, lex_cons_iff', List.Lex.singleton_iff,
    dig_lt_iff (by omega) (by omega), dig_inj (by omega) (by omega),
    dig_lt_iff (by omega) (by omega)]
  omega

theorem pad2_inj {a b : Nat} (ha : a < 100) (hb : b < 100) :
    pad2 a = pad2 b ↔ a = b := by
  rw [pad2, pad2]
  simp only [List.cons.injEq, and_true,
    dig_inj (show a / 10 < 10 by omega) (show b / 10 < 10 by omega),
    dig_inj (show a % 10 < 10 by omega) (show b % 10 < 10 by omega)]
  omega

theorem pad4_lt {a b : Nat} (ha : a < 10000) (hb : b < 10000) :
    List.Lex (· < ·) (pad4 a) (pad4 b) ↔ a < b := by
  rw [pad4, pad4, lex_cons_iff', lex_cons_iff', lex_cons_iff',
    List.Lex.singleton_iff,
    dig_lt_iff (show a / 1000 < 10 by omega) (show b / 1000 < 10 by omega),
    dig_inj (show a / 1000 < 10 by omega) (show b / 1000 < 10 by omega),
    dig_lt_iff (show a / 100 % 10 < 10 by omega) (show b / 100 % 10 < 10 by omega),
    dig_inj (show a / 100 % 10 < 10 by omega) (show b / 100 % 10 < 10 by omega),
    dig_lt_iff (show a / 10 % 10 < 10 by omega) (show b / 10 % 10 < 10 by omega),
    dig_inj (show a / 10 % 10 < 10 by omega) (show b / 10 % 10 < 10 by omega),
    dig_lt_iff (show a % 10 < 10 by omega) (show b % 10 < 10 by omega)]
  omega

theorem pad4_inj {a b : Nat} (ha : a < 10000) (hb : b < 10000) :
    pad4 a = pad4 b ↔ a = b := by
  rw [pad4, pad4]
  simp only [List.cons.injEq, and_true,
    dig_inj (show a / 1000 < 10 by omega) (show b / 1000 < 10 by omega),
    dig_inj (show a / 100 % 10 < 10 by omega) (show b / 100 % 10 < 10 by omega),
    dig_inj (show a / 10 % 10 < 10 by omega) (show b / 10 % 10 < 10 by omega),
    dig_inj (show a % 10 < 10 by omega) (show b % 10 < 10 by omega)]
  omega

/-- Chronological (lexicographic) order on timestamp components. -/
def stampLt (y1 mo1 d1 h1 mi1 y2 mo2 d2 h2 mi2 : Nat) : Prop :=
  y1 < y2 ∨ (y1 = y2 ∧ (mo1 < mo2 ∨ (mo1 = mo2 ∧ (d1 < d2 ∨ (d1 = d2 ∧
    (h1 < h2 ∨ (h1 = h2 ∧ mi1 < mi2)))))))

/-- The ranges Python's `datetime` constructor enforces. -/
def dtRange (y mo d hh mi : Nat) : Prop :=
  1 ≤ y ∧ y ≤ 9999 ∧ 1 ≤ mo ∧ mo ≤ 12 ∧ 1 ≤ d ∧ d ≤ 31 ∧ hh ≤ 23 ∧ mi ≤ 59

theorem iso_lex_iff {y1 mo1 d1 h1 mi1 y2 mo2 d2 h2 mi2 : Nat}
    (h1r : dtRange y1 mo1 d1 h1 mi1) (h2r : dtRange y2 mo2 d2 h2 mi2) :
    List.Lex (· < ·) (isoChars y1 mo1 d1 h1 mi1) (isoChars y2 mo2 d2 h2 mi2) ↔
      stampLt y1 mo1 d1 h1 mi1 y2 mo2 d2 h2 mi2 := by
  obtain ⟨ha1, ha2, ha3, ha4, ha5, ha6, ha7, ha8⟩ := h1r
  obtain ⟨hb1, hb2, hb3, hb4, hb5, hb6, hb7, hb8⟩ := h2r
  rw [isoChars, isoChars]
  rw [lex_append_block (by rfl)]
  rw [pad4_lt (by omega) (by omega), pad4_inj (by omega) (by omega),
    List.Lex.cons_iff]
  rw [lex_append_block (by rfl)]
  rw [pad2_lt (by omega) (by omega), pad2_inj (by omega) (by omega),
    List.Lex.cons_iff]
  rw [lex_append_block (by rfl)]
  rw [pad2_lt (by omega) (by omega), pad2_inj (by omega) (by omega),
    List.Lex.cons_iff]
  rw [lex_append_block (by rfl)]
  rw [pad2_lt (by omega) (by omega), pad2_inj (by omega) (by omega),
    List.Lex.cons_iff]
  rw [lex_append_block (by rfl)]
  rw [pad2_lt (by omega) (by omega), pad2_inj (by omega) (by omega),
    List.Lex.cons_iff]
  rw [pad2_lt (by omega) (by omega)]
  rw [stampLt]
  omega

theorem iso_lt_zzz (y mo d hh mi : Nat) (hy : y ≤ 9999) (rest : List Char) :
    List.Lex (· < ·) (isoChars y mo d hh mi) ('z' :: rest) := by
  have hiso : isoChars y mo d hh mi =
      dig (y / 1000) :: (pad4 y).tail ++ '-' :: (pad2 mo ++ '-' :: (pad2 d ++
        'T' :: (pad2 hh ++ ':' :: (pad2 mi ++ ':' :: pad2 0)))) := by
    rw [isoChars, pad4]
    rfl
  rw [hiso]
  exact List.Lex.rel (dig_lt_z (by omega))

theorem iso_ne_empty (y mo d hh mi : Nat) :
    String.mk (isoChars y mo d hh mi) ≠ "" := by
  intro he
  have h := congrArg String.data he
  simp [isoChars, pad4] at h

theorem sortKey_dated {g : Game} {y mo d hh mi : Nat}
    (h : g.date_iso = some (String.mk (isoChars y mo d hh mi))) :
    sortKey g = String.mk (isoChars y mo d hh mi) := by
  rw [sortKey, h, pyOrOS, if_neg (iso_ne_empty y mo d hh mi)]

theorem sortKey_undated {g : Game} (h : g.date_iso = none) :
    sortKey g = "zzz-" ++ g.opponent_name := by
  rw [sortKey, h]
  rfl

/-- C4: the output sequence of the final sort is ordered by the sort
key; on the records the pipeline produces, that key order puts every
dated record before every undated one, orders dated records by
ascending canonical timestamp, and orders undated records by ascending
opponent name. -/
theorem sort_total_order :
    (∀ gs : List Game,
      (sortSchedule gs).Pairwise (fun a b => sortKey a ≤ sortKey b)) ∧
    (∀ (a b : Game) (y mo d hh mi : Nat),
      a.date_iso = some (String.mk (isoChars y mo d hh mi)) →
      dtRange y mo d hh mi → b.date_iso = none →
      sortKey a < sortKey b) ∧
    (∀ (a b : Game) (y1 mo1 d1 h1 mi1 y2 mo2 d2 h2 mi2 : Nat),
      a.date_iso = some (String.mk (isoChars y1 mo1 d1 h1 mi1)) →
      b.date_iso = some (String.mk (isoChars y2 mo2 d2 h2 mi2)) →
      dtRange y1 mo1 d1 h1 mi1 → dtRange y2 mo2 d2 h2 mi2 →
      (sortKey a < sortKey b ↔ stampLt y1 mo1 d1 h1 mi1 y2 mo2 d2 h2 mi2)) ∧
    (∀ a b : Game, a.date_iso = none → b.date_iso = none →
      (sortKey a < sortKey b ↔ a.opponent_name < b.opponent_name)) := by
  refine ⟨?_, ?_, ?_, ?_⟩
  · intro gs
    have hp : (sortSchedule gs).Pairwise
        (fun a b => decide (sortKey a ≤ sortKey b) = true) :=
      List.sorted_mergeSort
        (fun a b c hab hbc => by
          simp only [decide_eq_true_eq] at *
          exact le_trans hab hbc)
        (fun a b => by
          simp only [Bool.or_eq_true, decide_eq_true_eq]
          exact le_total _ _) gs
    exact hp.imp (fun h => by simpa using h)
  · intro a b y mo d hh mi ha hrange hb
    rw [sortKey_dated ha, sortKey_undated hb]
    rw [String.lt_iff_toList_lt]
    show List.Lex (· < ·) (isoChars y mo d hh mi)
      ('z' :: ('z' :: 'z' :: '-' :: b.opponent_name.data))
    exact iso_lt_zzz y mo d hh mi hrange.2.1 _
  · intro a b y1 mo1 d1 h1 mi1 y2 mo2 d2 h2 mi2 ha hb h1r h2r
    rw [sortKey_dated ha, sortKey_dated hb]
    rw [String.lt_iff_toList_lt]
    show List.Lex (· < ·) (isoChars y1 mo1 d1 h1 mi1)
        (isoChars y2 mo2 d2 h2 mi2) ↔ _
    exact iso_lex_iff h1r h2r
  · intro a b ha hb
    rw [sortKey_undated ha, sortKey_undated hb]
    rw [String.lt_iff_toList_lt]
    constructor
    · intro h
      have h2 : List.Lex (· < ·)
          ('z' :: ('z' :: 'z' :: '-' :: a.opponent_name.data))
          ('z' :: ('z' :: 'z' :: '-' :: b.opponent_name.data)) := h
      rw [List.Lex.cons_iff, List.Lex.cons_iff, List.Lex.cons_iff,
        List.Lex.cons_iff] at h2
      rw [String.lt_iff_toList_lt]
      exact h2
    · intro h
      rw [String.lt_iff_toList_lt] at h
      show List.Lex (· < ·)
          ('z' :: ('z' :: 'z' :: '-' :: a.opponent_name.data))
          ('z' :: ('z' :: 'z' :: '-' :: b.opponent_name.data))
      exact List.Lex.cons (List.Lex.cons (List.Lex.cons (List.Lex.cons h)))

/-- Witness for C4: two concrete undated records order by name, and two
concrete timestamps order chronologically. -/
theorem sort_total_order_witness :
    (sortKey
        { date_iso := none, weekday := none, date_str := "", time_local := "TBA",
          tba := true, site := "home", va := "vs.", opponent_name := "Akron",
          opponent_slug := none, location_city := none, location_venue := "",
          stadium_slug := "", tv_network := none, opponent_logo_url := none,
          status := "scheduled" } <
      sortKey
        { date_iso := none, weekday := none, date_str := "", time_local := "TBA",
          tba := true, site := "home", va := "vs.", opponent_name := "Colorado",
          opponent_slug := none, location_city := none, location_venue := "",
          stadium_slug := "", tv_network := none, opponent_logo_url := none,
          status := "scheduled" } ↔
      ("Akron" : String) < "Colorado") ∧
    (sortKey
        { date_iso := some (String.mk (isoChars 2025 8 30 0 0)), weekday := none,
          date_str := "", time_local := "TBA", tba := true, site := "home",
          va := "vs.", opponent_name := "Cincinnati", opponent_slug := none,
          location_city := none, location_venue := "", stadium_slug := "",
          tv_network := none, opponent_logo_url := none,
          status := "scheduled" } <
      sortKey
        { date_iso := some (String.mk (isoChars 2025 9 6 14 30)),
          weekday := none, date_str := "", time_local := "2:30 PM MDT",
          tba := false, site := "away", va := "at",
          opponent_name := "Colorado State", opponent_slug := none,
          location_city := none, location_venue := "", stadium_slug := "",
          tv_network := none, opponent_logo_url := none,
          status := "scheduled" } ↔
      stampLt 2025 8 30 0 0 2025 9 6 14 30) := by
  constructor
  · exact sort_total_order.2.2.2 _ _ rfl rfl
  · exact sort_total_order.2.2.1 _ _ 2025 8 30 0 0 2025 9 6 14 30 rfl rfl
      (by rw [dtRange]; omega) (by rw [dtRange]; omega)

end HuskerFB
